import Mathlib

/-!
Verification of the strategy-pattern data-preparation core of a house-price
prediction pipeline: missing-value handling, feature engineering, outlier
detection and handling, train/test splitting, and zip-archive ingestion.

A tabular dataset is modelled as a list of labelled, dtype-tagged columns of
optional cells (a `none` cell is a missing value / NaN) together with a row
index.  Numeric values are rationals; the real-valued formulas of the
specification (z-score standard deviation, logarithmic transforms) appear in
theorem statements as casts into `ℝ`.
-/

namespace PricesPredictor

/-- A cell value: either a numeric value or a categorical (string) value. -/
inductive Val (V : Type) where
  | num : V → Val V
  | cat : String → Val V
  deriving DecidableEq, Repr

/-- The declared dtype of a column: numeric or object (categorical). -/
inductive Dtype where
  | numeric
  | object
  deriving DecidableEq, Repr

/-- A labelled column: name, dtype tag, and a list of optional cells
(`none` is a missing value). -/
structure Column (V : Type) where
  name : String
  dtype : Dtype
  cells : List (Option (Val V))
  deriving DecidableEq, Repr

/-- A dataframe: a list of columns plus a row index. -/
structure DataFrame (V : Type) where
  cols : List (Column V)
  index : List Nat
  deriving DecidableEq, Repr

/-- Dataframes over exact rational numbers, the default model. -/
abbrev Frame := DataFrame ℚ

/-- The numeric values of a cell list (missing and categorical cells skipped),
as pandas numeric reductions skip NaN. -/
def qVals (cells : List (Option (Val ℚ))) : List ℚ :=
  cells.filterMap fun c =>
    match c with
    | some (.num x) => some x
    | _ => none

/-- The categorical (string) values of a cell list, missing cells skipped. -/
def sVals {V : Type} (cells : List (Option (Val V))) : List String :=
  cells.filterMap fun c =>
    match c with
    | some (.cat s) => some s
    | _ => none

/-- All non-missing values of a cell list. -/
def nonNull {V : Type} (cells : List (Option (Val V))) : List (Val V) :=
  cells.filterMap id

/-- Does the cell list contain a missing value? -/
def hasNullCells {V : Type} (cells : List (Option (Val V))) : Bool :=
  cells.any fun c => c.isNone

/-- Does the dataframe contain any missing value? -/
def DataFrame.hasNull {V : Type} (df : DataFrame V) : Bool :=
  df.cols.any fun c => hasNullCells c.cells

/-- Number of rows of the dataframe (length of its index). -/
def DataFrame.nRows {V : Type} (df : DataFrame V) : Nat :=
  df.index.length

/-- The column labels, in order. -/
def DataFrame.colNames {V : Type} (df : DataFrame V) : List String :=
  df.cols.map (·.name)

/-- Shape summary of a dataframe: for each column its name, dtype and length. -/
def colShapes {V : Type} (df : DataFrame V) : List (String × Dtype × Nat) :=
  df.cols.map fun c => (c.name, c.dtype, c.cells.length)

/-- Well-typed frame: numeric columns hold only numeric (or missing) cells. -/
def Typed (df : Frame) : Bool :=
  df.cols.all fun c =>
    c.dtype != Dtype.numeric ||
      c.cells.all fun cell =>
        match cell with
        | some (.cat _) => false
        | _ => true

/-- Well-formed frame: every column has as many cells as there are index rows. -/
def WF {V : Type} (df : DataFrame V) : Bool :=
  df.cols.all fun c => c.cells.length == df.index.length

/-- Lexicographic comparison of character lists by code point. -/
def strListLe : List Char → List Char → Bool
  | [], _ => true
  | _ :: _, [] => false
  | a :: as, b :: bs => if a = b then strListLe as bs else decide (a < b)

/-- Lexicographic string comparison by code point (the order numpy and
pandas sort string values in). -/
def strLe (a b : String) : Bool := strListLe a.data b.data

/-- Insert an element into a list sorted by the boolean relation `le`. -/
def insertSorted {α : Type} (le : α → α → Bool) (x : α) : List α → List α
  | [] => [x]
  | y :: ys => if le x y then x :: y :: ys else y :: insertSorted le x ys

/-- Insertion sort by a boolean relation. -/
def sortBy {α : Type} (le : α → α → Bool) (l : List α) : List α :=
  l.foldr (insertSorted le) []

/-- Arithmetic mean of a list of rationals (`0` on the empty list, a value the
callers never use because pandas propagates NaN there). -/
def listMean (l : List ℚ) : ℚ :=
  l.sum / l.length

/-- Median of a list of rationals: middle element of the sorted list, or the
average of the two middle elements for even length. -/
def listMedian (l : List ℚ) : ℚ :=
  let s := sortBy (fun a b => decide (a ≤ b)) l
  let n := s.length
  if n % 2 = 1 then s.getD (n / 2) 0
  else (s.getD (n / 2 - 1) 0 + s.getD (n / 2) 0) / 2

/-- Ordering used by pandas `mode` when sorting modal values: numeric values
before strings, each ordered naturally. -/
def valLe : Val ℚ → Val ℚ → Bool
  | .num a, .num b => decide (a ≤ b)
  | .num _, .cat _ => true
  | .cat _, .num _ => false
  | .cat a, .cat b => strLe a b

/-- First modal value of a list: among the values of maximal multiplicity, the
least in the `valLe` order (pandas `mode().iloc[0]`); `none` on the empty
list, where pandas `iloc[0]` raises. -/
def firstModal (l : List (Val ℚ)) : Option (Val ℚ) :=
  match l.dedup with
  | [] => none
  | c :: cs =>
    some <| (c :: cs).foldl
      (fun a b =>
        if l.count a < l.count b then b
        else if l.count a == l.count b && valLe b a then b
        else a) c

/-- Linear-interpolation quantile of a list of rationals at probability `p`
(the pandas default interpolation); `none` on the empty list. -/
def qLin (p : ℚ) (l : List ℚ) : Option ℚ :=
  let s := sortBy (fun a b => decide (a ≤ b)) l
  match s with
  | [] => none
  | _ :: _ =>
    let n := s.length
    let h : ℚ := p * ((n : ℚ) - 1)
    let i : Nat := (Int.floor h).toNat
    let frac : ℚ := h - (i : ℚ)
    let a := s.getD i 0
    let b := s.getD (min (i + 1) (n - 1)) 0
    some (a + frac * (b - a))

/-- Replace every missing cell by `v`, leaving present cells untouched
(pandas `fillna` with a scalar). -/
def fillCellsWith {V : Type} (v : Val V) (cells : List (Option (Val V))) :
    List (Option (Val V)) :=
  cells.map fun c => some (c.getD v)

/-- Fill the missing cells of every numeric column with a statistic of the
column's numeric values; a column whose statistic is undefined (no numeric
values: pandas mean/median is NaN and `fillna` skips NaN fill values) and
every non-numeric column are left untouched. -/
def fillNumericWith (statOf : List ℚ → ℚ) (df : Frame) : Frame :=
  { df with
    cols := df.cols.map fun c =>
      if c.dtype = Dtype.numeric then
        let vals := qVals c.cells
        if vals.isEmpty then c
        else { c with cells := fillCellsWith (.num (statOf vals)) c.cells }
      else c }

/-- Fill the missing cells of one column with its first modal value; raises
(pandas `IndexError` from `mode().iloc[0]`) when the column has no
non-missing value. -/
def fillModeCol (c : Column ℚ) : Except String (Column ℚ) :=
  match firstModal (nonNull c.cells) with
  | none => .error "single positional indexer is out-of-bounds"
  | some m => .ok { c with cells := fillCellsWith m c.cells }

/-- Map a fallible column transformation over a column list, stopping at the
first raise, as the source's sequential loop does. -/
def mapColsE (f : Column ℚ → Except String (Column ℚ)) :
    List (Column ℚ) → Except String (List (Column ℚ))
  | [] => .ok []
  | c :: cs => do
    let c2 ← f c
    let cs2 ← mapColsE f cs
    .ok (c2 :: cs2)

/-- Model of `FillMissingValuesStrategy.handle`: fill missing values by the method
fixed at construction.  `mean`/`median` fill only numeric columns, `mode`
fills every column with its first modal value, `constant` fills every column
with the constructor-supplied fill value (raising, like pandas
`fillna(None)`, when no fill value was supplied), and any other method is a
logged-warning no-op returning the dataset unchanged. -/
def fillMissingHandle (method : String) (fillValue : Option ℚ) (df : Frame) :
    Except String Frame :=
  if method = "mean" then .ok (fillNumericWith listMean df)
  else if method = "median" then .ok (fillNumericWith listMedian df)
  else if method = "mode" then do
    let cols2 ← mapColsE fillModeCol df.cols
    .ok { df with cols := cols2 }
  else if method = "constant" then
    match fillValue with
    | none => .error "Must specify a fill value or method."
    | some v =>
      .ok { df with
            cols := df.cols.map fun c =>
              { c with cells := fillCellsWith (.num v) c.cells } }
  else .ok df

/-- Is row `i` free of missing values across all columns? -/
def rowComplete {V : Type} (df : DataFrame V) (i : Nat) : Bool :=
  df.cols.all fun c => (c.cells.getD i none).isSome

/-- Model of `DropMissingValuesStrategy.handle` with `axis=0`, `thresh=None`: drop
every row containing at least one missing value (pandas `dropna(axis=0)`). -/
def dropRowsAnyNull (df : Frame) : Frame :=
  let keepIdx := (List.range df.nRows).filter fun i => rowComplete df i
  { cols := df.cols.map fun c =>
      { c with cells := keepIdx.filterMap fun i => c.cells.get? i }
    index := keepIdx.filterMap fun i => df.index.get? i }

/-- Model of `handle_missing_values_step`: dispatch on the strategy name.  The fill
strategies are constructed with the default fill value (`None`). -/
def handleMissingValuesStep (strategy : String) (df : Frame) :
    Except String Frame :=
  if strategy = "drop" then .ok (dropRowsAnyNull df)
  else if ["mean", "median", "mode", "constant"].contains strategy then
    fillMissingHandle strategy none df
  else .error ("Unsupported missing value handling strategy: " ++ strategy)

/-- Does the string end with the given suffix (`str.endswith`)? -/
def strEndsWith (s pat : String) : Bool :=
  decide (pat.data.length ≤ s.data.length) &&
    s.data.drop (s.data.length - pat.data.length) == pat.data

/-- Model of `ZipDataIngestor.ingest`: the archive is modelled as the list of its
extracted entries, each a file name paired with the dataframe its CSV content
parses to.  The path must end in `.zip` and exactly one entry must be a
`.csv` file. -/
def ingestZip (path : String) (entries : List (String × Frame)) :
    Except String Frame :=
  if strEndsWith path ".zip" then
    match entries.filter (fun e => strEndsWith e.1 ".csv") with
    | [] => .error "No CSV file found in the extracted data."
    | [e] => .ok e.2
    | _ :: _ :: _ => .error "Multiple CSV files found. Please specify which one to use."
  else .error "The provided file is not a .zip file."

/-- The sorted distinct categories observed in a cell list (scikit-learn's
`OneHotEncoder` orders categories lexicographically). -/
def sortedCats {V : Type} (cells : List (Option (Val V))) : List String :=
  sortBy strLe (sVals cells).dedup

/-- The one-hot columns produced for one categorical column: one numeric 0/1
column per observed category, named `name_category`. -/
def encodeCol (c : Column ℚ) : List (Column ℚ) :=
  (sortedCats c.cells).map fun catv =>
    { name := c.name ++ "_" ++ catv
      dtype := Dtype.numeric
      cells := c.cells.map fun cell =>
        some (.num (if cell = some (.cat catv) then 1 else 0)) }

/-- Model of `OneHotEncoding.apply_transformation`: encode the target columns, drop
them from the frame, reset the row index to `0..n-1`, and append the encoded
columns (in target-feature order) after the remaining original columns.
Raises (pandas `KeyError`) when a target feature is absent. -/
def oneHotTransform (features : List String) (df : Frame) :
    Except String Frame :=
  if features.all (fun f => df.colNames.contains f) then
    let keep := df.cols.filter fun c => !features.contains c.name
    let encoded := features.foldr
      (fun f acc =>
        (match df.cols.find? (fun c => c.name = f) with
         | some c => encodeCol c
         | none => []) ++ acc) []
    .ok { cols := keep ++ encoded, index := List.range df.nRows }
  else .error "feature column not found"

/-- A purely numeric frame (the shape on which the pipeline runs outlier
detection): named columns of optional rationals, plus the row count. -/
structure NumFrame where
  nRows : Nat
  cols : List (String × List (Option ℚ))
  deriving DecidableEq, Repr

/-- Well-formed numeric frame: every column has `nRows` cells. -/
def NumWF (nf : NumFrame) : Bool :=
  nf.cols.all fun c => c.2.length == nf.nRows

/-- Sum of squared deviations from the mean. -/
def sqDevSum (l : List ℚ) : ℚ :=
  (l.map fun x => (x - listMean l) ^ 2).sum

/-- The z-score outlier mask of one column: a missing cell is never flagged
(NaN comparisons are false); a present value is flagged exactly when
`abs((x - mean)/std) > threshold` with the sample (ddof = 1) standard
deviation computed over the non-missing values; the comparison is carried
out in the equivalent squared rational form.  A negative threshold flags
every cell whose z-score is a number (not NaN). -/
def maskOfZ (threshold : ℚ) (cells : List (Option ℚ)) : List Bool :=
  let vals := cells.filterMap id
  let n := vals.length
  let mu := listMean vals
  let S := sqDevSum vals
  cells.map fun cell =>
    match cell with
    | none => false
    | some v =>
      if threshold < 0 then decide (2 ≤ n ∧ S ≠ 0)
      else decide ((v - mu) ^ 2 * ((n : ℚ) - 1) > threshold ^ 2 * S)

/-- Model of `ZScoreOutlierDetection.detect_outliers`. -/
def zscoreDetect (threshold : ℚ) (nf : NumFrame) : List (String × List Bool) :=
  nf.cols.map fun c => (c.1, maskOfZ threshold c.2)

/-- The IQR outlier mask of one column: a present value is flagged exactly
when it lies outside `[Q1 - 1.5*IQR, Q3 + 1.5*IQR]`, quartiles computed by
linear interpolation over the non-missing values. -/
def maskOfIQR (cells : List (Option ℚ)) : List Bool :=
  let vals := cells.filterMap id
  match qLin (1/4) vals, qLin (3/4) vals with
  | some q1, some q3 =>
    let iqr := q3 - q1
    cells.map fun cell =>
      match cell with
      | none => false
      | some v => decide (v < q1 - 3/2 * iqr ∨ v > q3 + 3/2 * iqr)
  | _, _ => cells.map fun _ => false

/-- Model of `IQRBasedOutlierDetection.detect_outliers`. -/
def iqrDetect (nf : NumFrame) : List (String × List Bool) :=
  nf.cols.map fun c => (c.1, maskOfIQR c.2)

/-- Clip one column to its 1st and 99th percentiles (pandas `clip`); missing
cells stay missing, and a column with no values is left untouched. -/
def clipCells (cells : List (Option ℚ)) : List (Option ℚ) :=
  let vals := cells.filterMap id
  match qLin (1/100) vals, qLin (99/100) vals with
  | some lo, some hi => cells.map fun cell => cell.map fun v => min (max v lo) hi
  | _, _ => cells

/-- Clip every column of a numeric frame to its own 1st/99th percentiles. -/
def clipFrame (nf : NumFrame) : NumFrame :=
  { nf with cols := nf.cols.map fun c => (c.1, clipCells c.2) }

/-- Does any column's mask flag row `i`? -/
def rowFlagged (masks : List (String × List Bool)) (i : Nat) : Bool :=
  masks.any fun m => m.2.getD i false

/-- Keep exactly the rows flagged in no column
(`df[(~outliers).all(axis=1)]`). -/
def removeFlagged (masks : List (String × List Bool)) (nf : NumFrame) :
    NumFrame :=
  let keepIdx := (List.range nf.nRows).filter fun i => !rowFlagged masks i
  { nRows := keepIdx.length
    cols := nf.cols.map fun c => (c.1, keepIdx.filterMap fun i => c.2.get? i) }

/-- Model of `OutlierDetector.handle_outliers`: detect with the current strategy, then
either remove every flagged row, cap each column to its 1st/99th percentiles
(ignoring the detected mask), or raise on any other method. -/
def handleOutliers (det : NumFrame → List (String × List Bool))
    (method : String) (nf : NumFrame) : Except String NumFrame :=
  let masks := det nf
  if method = "remove" then .ok (removeFlagged masks nf)
  else if method = "cap" then .ok (clipFrame nf)
  else .error ("Invalid method: " ++ method ++ ". No outlier handling performed.")

/-- Drop a column by name (pandas `drop(columns=[target])`). -/
def dropColumn {V : Type} (target : String) (df : DataFrame V) : DataFrame V :=
  { df with cols := df.cols.filter fun c => c.name ≠ target }

/-- Select the rows at the given positions, in order. -/
def selectRows {V : Type} (idx : List Nat) (df : DataFrame V) : DataFrame V :=
  { cols := df.cols.map fun c =>
      { c with cells := idx.filterMap fun i => c.cells.get? i }
    index := idx.filterMap fun i => df.index.get? i }

/-- Model of `SimpleTrainTestSplitStrategy.split_data`: raise when the target column
is absent; otherwise drop the target from the features and split the rows of
features and target by the seed-determined permutation `perm` of row
positions — the first `ceil(testSize * n)` permuted positions form the test
set and the rest the training set (scikit-learn `train_test_split`). -/
def splitData (testSize : ℚ) (perm : List Nat) (df : Frame) (target : String) :
    Except String (Frame × Frame × List (Option (Val ℚ)) × List (Option (Val ℚ))) :=
  match df.cols.find? (fun c => c.name = target) with
  | none => .error ("KeyError: " ++ target)
  | some yc =>
    let X := dropColumn target df
    let nTest := (Int.ceil (testSize * (df.nRows : ℚ))).toNat
    let testIdx := perm.take nTest
    let trainIdx := perm.drop nTest
    .ok (selectRows trainIdx X, selectRows testIdx X,
         trainIdx.filterMap (fun i => yc.cells.get? i),
         testIdx.filterMap (fun i => yc.cells.get? i))

/-- Apply a function to the numeric payload of a value, leaving categorical
values untouched. -/
def mapValNum {V : Type} (f : V → V) : Val V → Val V
  | .num x => .num (f x)
  | .cat s => .cat s

/-- Apply a numeric function to every present numeric cell of the target
columns, leaving all other columns and cells untouched; `LogTransformation`
is this with `log1p` and the inverse transform with `expm1`. -/
def mapFeatureCells {V : Type} (f : V → V) (features : List String)
    (df : DataFrame V) : DataFrame V :=
  { df with
    cols := df.cols.map fun c =>
      if features.contains c.name then
        { c with cells := c.cells.map fun cell => cell.map (mapValNum f) }
      else c }

/-- The per-feature statistics scikit-learn's `StandardScaler.fit` computes:
mean and population (ddof = 0) variance of each target column. -/
def scalerFitParams (features : List String) (df : Frame) :
    List (String × ℚ × ℚ) :=
  features.map fun f =>
    match df.cols.find? (fun c => c.name = f) with
    | some c =>
      let vals := qVals c.cells
      (f, listMean vals, sqDevSum vals / vals.length)
    | none => (f, 0, 0)

/-- Transform the target columns with fitted scaler parameters: each value
becomes `(x - mean) / scale` where `scale` is the square root of the fitted
variance, 1 when the variance is zero (scikit-learn's guard); the square
root computed by the library is modelled by the explicit function `sq`. -/
def scalerTransform (sq : ℚ → ℚ) (params : List (String × ℚ × ℚ))
    (df : Frame) : Frame :=
  { df with
    cols := df.cols.map fun c =>
      match params.find? (fun p => p.1 = c.name) with
      | some p =>
        let scale := if p.2.2 = 0 then 1 else sq p.2.2
        { c with
          cells := c.cells.map fun cell =>
            cell.map fun v =>
              match v with
              | .num x => .num ((x - p.2.1) / scale)
              | .cat s => .cat s }
      | none => c }

/-- Model of `StandardScaling.apply_transformation` with the held scaler's fitted
state made explicit: the strategy refits the scaler on the current dataframe
(`fit_transform`), so the incoming state is overwritten, then transforms. -/
def standardScalingApply (sq : ℚ → ℚ) (features : List String)
    (state : Option (List (String × ℚ × ℚ))) (df : Frame) :
    Option (List (String × ℚ × ℚ)) × Frame :=
  let _ := state
  let fitted := scalerFitParams features df
  (some fitted, scalerTransform sq fitted df)

/-- Smallest element of a list of rationals (`0` on the empty list, which
scikit-learn rejects before fitting). -/
def listMin (l : List ℚ) : ℚ :=
  match l with
  | [] => 0
  | h :: t => t.foldl min h

/-- Largest element of a list of rationals (`0` on the empty list). -/
def listMax (l : List ℚ) : ℚ :=
  match l with
  | [] => 0
  | h :: t => t.foldl max h

/-- The per-feature statistics scikit-learn's `MinMaxScaler.fit` computes:
the data minimum and maximum of each target column. -/
def minMaxFitParams (features : List String) (df : Frame) :
    List (String × ℚ × ℚ) :=
  features.map fun f =>
    match df.cols.find? (fun c => c.name = f) with
    | some c =>
      let vals := qVals c.cells
      (f, listMin vals, listMax vals)
    | none => (f, 0, 0)

/-- Transform the target columns with fitted min-max parameters: each value
becomes `(x - min) / (max - min)` (the default `(0, 1)` feature range), with
a zero range replaced by 1 (scikit-learn's `_handle_zeros_in_scale`). -/
def minMaxTransform (params : List (String × ℚ × ℚ)) (df : Frame) : Frame :=
  { df with
    cols := df.cols.map fun c =>
      match params.find? (fun p => p.1 = c.name) with
      | some p =>
        let range := p.2.2 - p.2.1
        let scale := if range = 0 then 1 else range
        { c with
          cells := c.cells.map fun cell =>
            cell.map fun v =>
              match v with
              | .num x => .num ((x - p.2.1) / scale)
              | .cat s => .cat s }
      | none => c }

/-- Model of `MinMaxScaling.apply_transformation` with the held scaler's
fitted state made explicit: like `StandardScaling`, the strategy calls
`fit_transform`, refitting the scaler on the current dataframe, so the
incoming state is overwritten before the transform. -/
def minMaxScalingApply (features : List String)
    (state : Option (List (String × ℚ × ℚ))) (df : Frame) :
    Option (List (String × ℚ × ℚ)) × Frame :=
  let _ := state
  let fitted := minMaxFitParams features df
  (some fitted, minMaxTransform fitted df)

/-- Model of `OneHotEncoding.apply_transformation` with the held encoder's fitted
category state made explicit: the encoder is refit on the current dataframe
every call, so the incoming state is overwritten. -/
def oneHotEncoderApply (state : Option (List (String × List String)))
    (features : List String) (df : Frame) :
    Option (List (String × List String)) × Except String Frame :=
  let _ := state
  let fitted := features.map fun f =>
    (f, match df.cols.find? (fun c => c.name = f) with
        | some c => sortedCats c.cells
        | none => [])
  (some fitted, oneHotTransform features df)

/-- Does every numeric column hold at least one numeric value?  (When not,
pandas' column mean/median is NaN and `fillna` leaves the column's missing
cells missing.) -/
def numColsHaveData (df : Frame) : Bool :=
  df.cols.all fun c => c.dtype != Dtype.numeric || !(qVals c.cells).isEmpty

/-- Does every column hold at least one non-missing value?  (When not,
pandas `mode().iloc[0]` raises an `IndexError`.) -/
def allColsHaveData (df : Frame) : Bool :=
  df.cols.all fun c => !(nonNull c.cells).isEmpty

/-- The numeric value at row `i` of a cell list, `0` when absent. -/
def cellQ (cells : List (Option (Val ℚ))) (i : Nat) : ℚ :=
  match cells.get? i with
  | some (some (.num x)) => x
  | _ => 0

/-- Example frame: a numeric column with a gap and a categorical column with
a gap. -/
def exDf : Frame :=
  { cols := [ { name := "a", dtype := Dtype.numeric,
                cells := [some (.num 1), none, some (.num 3)] },
              { name := "b", dtype := Dtype.object,
                cells := [some (.cat "x"), some (.cat "x"), none] } ],
    index := [0, 1, 2] }

/-- Example frame with a single all-missing numeric column. -/
def exNullDf : Frame :=
  { cols := [ { name := "a", dtype := Dtype.numeric, cells := [none] } ],
    index := [0] }

/-- Example frame with a categorical column and a numeric column. -/
def exC2df : Frame :=
  { cols := [ { name := "cat", dtype := Dtype.object,
                cells := [some (.cat "b"), some (.cat "a"), some (.cat "b")] },
              { name := "x", dtype := Dtype.numeric,
                cells := [some (.num 1), some (.num 2), some (.num 3)] } ],
    index := [10, 11, 12] }

/-- The categorical column of `exC2df`. -/
def exC2cat : Column ℚ :=
  { name := "cat", dtype := Dtype.object,
    cells := [some (.cat "b"), some (.cat "a"), some (.cat "b")] }

/-- The frame `OneHotEncoding.apply_transformation` produces on `exC2df`
with target feature `cat`: the remaining original column first, then the
encoded category columns, with the index reset. -/
def exC2out : Frame :=
  { cols := [ { name := "x", dtype := Dtype.numeric,
                cells := [some (.num 1), some (.num 2), some (.num 3)] },
              { name := "cat_a", dtype := Dtype.numeric,
                cells := [some (.num 0), some (.num 1), some (.num 0)] },
              { name := "cat_b", dtype := Dtype.numeric,
                cells := [some (.num 1), some (.num 0), some (.num 1)] } ],
    index := [0, 1, 2] }

/-- Example numeric frame with one far outlier and a missing cell. -/
def exNf : NumFrame :=
  { nRows := 5,
    cols := [ ("a", [some 1, some 2, some 3, some 4, some 100]),
              ("b", [some 0, none, some 0, some 0, some 0]) ] }

/-- Example real-valued frame for the logarithmic transform. -/
def exLogDf : DataFrame ℝ :=
  { cols := [ { name := "p", dtype := Dtype.numeric,
                cells := [some (.num 3), some (.num 0)] } ],
    index := [0, 1] }

/-- C6: `ZipDataIngestor.ingest` succeeds on a `.zip` path whose extraction
yields exactly one CSV, returning a dataset with the same row count as that
CSV; it raises when the path does not end in `.zip`, when no CSV is found,
and when more than one CSV is found. -/
theorem ingest_zip_spec (path : String) (entries : List (String × Frame)) :
    (∀ e : String × Frame, strEndsWith path ".zip" = true →
      entries.filter (fun x => strEndsWith x.1 ".csv") = [e] →
      ∃ out : Frame, ingestZip path entries = Except.ok out ∧
        out.nRows = e.2.nRows) ∧
    (strEndsWith path ".zip" = false →
      ∃ msg, ingestZip path entries = Except.error msg) ∧
    (strEndsWith path ".zip" = true →
      entries.filter (fun x => strEndsWith x.1 ".csv") = [] →
      ∃ msg, ingestZip path entries = Except.error msg) ∧
    (∀ e1 e2 rest, strEndsWith path ".zip" = true →
      entries.filter (fun x => strEndsWith x.1 ".csv") = e1 :: e2 :: rest →
      ∃ msg, ingestZip path entries = Except.error msg) := by
  refine ⟨?_, ?_, ?_, ?_⟩
  · intro e hzip hcsv
    exact ⟨e.2, by simp [ingestZip, hzip, hcsv], rfl⟩
  · intro hzip
    refine ⟨"The provided file is not a .zip file.", ?_⟩
    simp [ingestZip, hzip]
  · intro hzip hcsv
    refine ⟨"No CSV file found in the extracted data.", ?_⟩
    simp [ingestZip, hzip, hcsv]
  · intro e1 e2 rest hzip hcsv
    refine ⟨"Multiple CSV files found. Please specify which one to use.", ?_⟩
    simp [ingestZip, hzip, hcsv]

/-- Witness for `ingest_zip_spec` at a concrete path and entry list. -/
theorem ingest_zip_spec_witness :
    ∃ out : Frame, ingestZip "archive.zip" [("data.csv", exDf)] = Except.ok out ∧
      out.nRows = exDf.nRows := by
  have h := (ingest_zip_spec "archive.zip" [("data.csv", exDf)]).1
    ("data.csv", exDf) (by decide) (by decide)
  exact h

/-- C7: `FillMissingValuesStrategy.handle` with a method outside
`{mean, median, mode, constant}` does not raise: it returns the dataset
unchanged. -/
theorem fill_unknown_method_noop (df : Frame) (fv : Option ℚ) (m : String)
    (h1 : m ≠ "mean") (h2 : m ≠ "median") (h3 : m ≠ "mode")
    (h4 : m ≠ "constant") :
    fillMissingHandle m fv df = Except.ok df := by
  simp [fillMissingHandle, h1, h2, h3, h4]

/-- Witness for `fill_unknown_method_noop` at a concrete frame and method. -/
theorem fill_unknown_method_noop_witness :
    fillMissingHandle "foo" none exDf = Except.ok exDf :=
  fill_unknown_method_noop exDf none "foo"
    (by decide) (by decide) (by decide) (by decide)

/-- C10: on a dataset with a missing value, `FillMissingValuesStrategy`
built with method `constant` and the default fill value raises from the
underlying fill call, and `handle_missing_values_step` with strategy
`constant` (which never passes a fill value) therefore fails as well. -/
theorem constant_default_fill_raises (df : Frame) (h : df.hasNull = true) :
    (∃ msg, fillMissingHandle "constant" none df = Except.error msg) ∧
    (∃ msg, handleMissingValuesStep "constant" df = Except.error msg) :=
  ⟨⟨"Must specify a fill value or method.", rfl⟩,
   ⟨"Must specify a fill value or method.", rfl⟩⟩

/-- Witness for `constant_default_fill_raises` at a concrete frame with a
missing value. -/
theorem constant_default_fill_raises_witness :
    (∃ msg, fillMissingHandle "constant" none exDf = Except.error msg) ∧
    (∃ msg, handleMissingValuesStep "constant" exDf = Except.error msg) :=
  constant_default_fill_raises exDf (by decide)

/-- C8: every strategy operation is a pure function of the input dataset and
the construction parameters.  The only operations whose source holds any
mutable object across calls are the three fitted-model strategies —
`StandardScaling`, `MinMaxScaling` and `OneHotEncoding` — and each refits
that object on every call (`fit_transform`), so no state carried across
calls influences a later result: with the fitted state made explicit, the
output (state and dataframe alike) is the same whatever state came in.  The
remaining operations (missing-value handling, log transform, outlier
detection and handling, splitting) hold only constructor parameters and are
modelled as plain functions of those parameters and the dataset
(`fillMissingHandle`, `mapFeatureCells`, `handleOutliers`, `splitData`),
which leave their input frame untouched by construction. -/
theorem strategies_refit_stateless (sq : ℚ → ℚ) (features : List String)
    (s1 s2 : Option (List (String × ℚ × ℚ)))
    (u1 u2 : Option (List (String × ℚ × ℚ)))
    (t1 t2 : Option (List (String × List String))) (df : Frame) :
    standardScalingApply sq features s1 df = standardScalingApply sq features s2 df ∧
    minMaxScalingApply features u1 df = minMaxScalingApply features u2 df ∧
    oneHotEncoderApply t1 features df = oneHotEncoderApply t2 features df :=
  ⟨rfl, rfl, rfl⟩

/-- Selecting cells at positions that are all in range keeps one cell per
position. -/
theorem length_filterMap_get {α : Type} (cs : List α) (idx : List Nat)
    (h : ∀ i ∈ idx, i < cs.length) :
    (idx.filterMap fun i => cs.get? i).length = idx.length := by
  induction idx with
  | nil => simp
  | cons i is ih =>
    have hi : i < cs.length := h i (List.mem_cons_self i is)
    have hrec := ih fun j hj => h j (List.mem_cons_of_mem i hj)
    rw [List.filterMap_cons, List.get?_eq_get hi]
    show (cs.get ⟨i, hi⟩ :: is.filterMap fun j => cs.get? j).length = (i :: is).length
    rw [List.length_cons, List.length_cons, hrec]

/-- C5: `SimpleTrainTestSplitStrategy.split_data` on a dataset containing
the target column returns four parts whose feature-row counts sum to the
dataset's row count, with the target column absent from both feature
outputs; it fails when the target column is absent.  `perm` is the
seed-determined permutation of row positions the library splits by. -/
theorem split_data_spec (testSize : ℚ) (perm : List Nat) (df : Frame)
    (target : String) (hperm : perm.Perm (List.range df.nRows)) :
    ((∃ c ∈ df.cols, c.name = target) →
      ∃ Xtr Xte ytr yte,
        splitData testSize perm df target = Except.ok (Xtr, Xte, ytr, yte) ∧
        Xtr.nRows + Xte.nRows = df.nRows ∧
        target ∉ Xtr.colNames ∧ target ∉ Xte.colNames) ∧
    ((∀ c ∈ df.cols, c.name ≠ target) →
      ∃ msg, splitData testSize perm df target = Except.error msg) := by
  constructor
  · intro hmem
    have hfind : (df.cols.find? (fun c => c.name = target)).isSome := by
      rw [List.find?_isSome]
      obtain ⟨c, hc, hn⟩ := hmem
      exact ⟨c, hc, by simp [hn]⟩
    obtain ⟨yc, hyc⟩ := Option.isSome_iff_exists.mp hfind
    have hidx : ∀ i ∈ perm, i < df.index.length := by
      intro i hi
      have := hperm.mem_iff.mp hi
      simpa [DataFrame.nRows] using List.mem_range.mp this
    have hnames : ∀ idx : List Nat, target ∉ (selectRows idx (dropColumn target df)).colNames := by
      intro idx hmem2
      simp only [selectRows, dropColumn, DataFrame.colNames, List.map_map,
        List.mem_map, Function.comp] at hmem2
      obtain ⟨c, hc, hn⟩ := hmem2
      have h2 := (List.mem_filter.mp hc).2
      simp only [decide_eq_true_eq] at h2
      exact h2 hn
    have heq : splitData testSize perm df target = Except.ok
        (selectRows (perm.drop ((Int.ceil (testSize * (df.nRows : ℚ))).toNat))
           (dropColumn target df),
         selectRows (perm.take ((Int.ceil (testSize * (df.nRows : ℚ))).toNat))
           (dropColumn target df),
         (perm.drop ((Int.ceil (testSize * (df.nRows : ℚ))).toNat)).filterMap
           (fun i => yc.cells.get? i),
         (perm.take ((Int.ceil (testSize * (df.nRows : ℚ))).toNat)).filterMap
           (fun i => yc.cells.get? i)) := by
      simp [splitData, hyc]
    refine ⟨_, _, _, _, heq, ?_, hnames _, hnames _⟩
    · have hlen : ∀ idx : List Nat, (∀ i ∈ idx, i < df.index.length) →
          (selectRows idx (dropColumn target df)).nRows = idx.length := by
        intro idx hidx2
        simp only [selectRows, dropColumn, DataFrame.nRows]
        exact length_filterMap_get df.index idx hidx2
      rw [hlen _ (fun i hi => hidx i (List.mem_of_mem_drop hi)),
        hlen _ (fun i hi => hidx i (List.mem_of_mem_take hi))]
      rw [List.length_drop, List.length_take]
      have hp : perm.length = df.nRows := by
        simpa using hperm.length_eq
      omega
  · intro habs
    have hfind : df.cols.find? (fun c => c.name = target) = none := by
      rw [List.find?_eq_none]
      intro c hc
      simp [habs c hc]
    exact ⟨"KeyError: " ++ target, by simp [splitData, hfind]⟩

/-- Witness for `split_data_spec` at a concrete frame and permutation. -/
theorem split_data_spec_witness :
    ∃ Xtr Xte ytr yte,
      splitData (1/5) [2, 0, 1] exC2df "x" = Except.ok (Xtr, Xte, ytr, yte) ∧
      Xtr.nRows + Xte.nRows = exC2df.nRows ∧
      "x" ∉ Xtr.colNames ∧ "x" ∉ Xte.colNames := by
  have h := (split_data_spec (1/5) [2, 0, 1] exC2df "x" (by decide)).1
  exact h ⟨{ name := "x", dtype := Dtype.numeric,
             cells := [some (.num 1), some (.num 2), some (.num 3)] },
    by decide, rfl⟩

/-- Inserting into a sorted list is a permutation of consing. -/
theorem insertSorted_perm {α : Type} (le : α → α → Bool) (x : α) (l : List α) :
    (insertSorted le x l).Perm (x :: l) := by
  induction l with
  | nil => exact List.Perm.refl _
  | cons y ys ih =>
    rw [insertSorted]
    by_cases hle : le x y
    · simp [hle]
    · simp only [hle, if_false]
      exact (ih.cons y).trans (List.Perm.swap x y ys)

/-- Insertion sort permutes its input. -/
theorem sortBy_perm {α : Type} (le : α → α → Bool) (l : List α) :
    (sortBy le l).Perm l := by
  induction l with
  | nil => exact List.Perm.refl _
  | cons x xs ih =>
    exact (insertSorted_perm le x (sortBy le xs)).trans (ih.cons x)

/-- The linear-interpolation quantile of a nonempty list exists. -/
theorem qLin_isSome (p : ℚ) (l : List ℚ) (h : l ≠ []) :
    ∃ q, qLin p l = some q := by
  have hlen : (sortBy (fun a b => decide (a ≤ b)) l).length = l.length :=
    (sortBy_perm _ l).length_eq
  rw [qLin]
  cases hs : sortBy (fun a b => decide (a ≤ b)) l with
  | nil =>
    exfalso
    apply h
    have := hlen
    rw [hs] at this
    exact List.length_eq_zero.mp this.symm
  | cons a s => exact ⟨_, rfl⟩

/-- Keeping the in-range positions whose flag is false is the same as
filtering the cell list through the row-flag list. -/
theorem select_rows_zip {α : Type} (cs : List α) (flag : Nat → Bool) :
    (((List.range cs.length).filter fun i => !flag i).filterMap fun i => cs.get? i)
      = ((cs.zip ((List.range cs.length).map flag)).filterMap
          fun q => if q.2 then none else some q.1) := by
  induction cs generalizing flag with
  | nil => simp
  | cons c cs ih =>
    have h1 : List.range (c :: cs).length = 0 :: (List.range cs.length).map Nat.succ := by
      simpa using List.range_succ_eq_map cs.length
    rw [h1]
    cases hf : flag 0 <;>
      simp [hf, List.filter_cons, List.filter_map, List.filterMap_map,
        List.filterMap_cons, Function.comp_def, List.map_map] <;>
      simpa using ih fun i => flag (i + 1)

/-- C3: `OutlierDetector.handle_outliers` with method `remove` drops exactly
the rows flagged in any column of the detected mask; with method `cap` it
clips every column independently to its own 1st/99th percentiles, ignoring
the detected mask entirely (the result does not depend on the detection
strategy); any other method raises a configuration error. -/
theorem handle_outliers_spec (det : NumFrame → List (String × List Bool))
    (nf : NumFrame) (hWF : NumWF nf = true) :
    (∃ out, handleOutliers det "remove" nf = Except.ok out ∧
      out.cols.map Prod.fst = nf.cols.map Prod.fst ∧
      out.nRows = ((List.range nf.nRows).filter fun i => !rowFlagged (det nf) i).length ∧
      ∀ j nm cs, nf.cols.get? j = some (nm, cs) →
        out.cols.get? j = some (nm,
          (cs.zip ((List.range nf.nRows).map fun i => rowFlagged (det nf) i)).filterMap
            fun q => if q.2 then none else some q.1)) ∧
    (∀ det2, handleOutliers det "cap" nf = handleOutliers det2 "cap" nf) ∧
    (∃ out, handleOutliers det "cap" nf = Except.ok out ∧
      out.cols.map Prod.fst = nf.cols.map Prod.fst ∧
      ∀ j nm cs, nf.cols.get? j = some (nm, cs) →
        ∀ i v, cs.get? i = some (some v) →
          ∃ lo hi cs2, qLin (1/100) (cs.filterMap id) = some lo ∧
            qLin (99/100) (cs.filterMap id) = some hi ∧
            out.cols.get? j = some (nm, cs2) ∧
            cs2.get? i = some (some (min (max v lo) hi))) ∧
    (∀ m, m ≠ "remove" → m ≠ "cap" →
      ∃ msg, handleOutliers det m nf = Except.error msg) := by
  refine ⟨⟨removeFlagged (det nf) nf, rfl, ?_, rfl, ?_⟩,
    fun det2 => rfl,
    ⟨clipFrame nf, rfl, ?_, ?_⟩, ?_⟩
  · simp [removeFlagged, List.map_map, Function.comp_def]
  · intro j nm cs hj
    have hmem : (nm, cs) ∈ nf.cols := List.get?_mem hj
    have hlen : cs.length = nf.nRows := by
      have := (List.all_eq_true.mp hWF) _ hmem
      simpa using this
    simp only [removeFlagged, List.get?_map, hj, Option.map_some']
    rw [← hlen]
    rw [select_rows_zip cs fun i => rowFlagged (det nf) i]
  · simp [clipFrame, List.map_map, Function.comp_def]
  · intro j nm cs hj i v hi
    have hv : v ∈ cs.filterMap id := by
      rw [List.mem_filterMap]
      exact ⟨some v, List.get?_mem hi, rfl⟩
    have hne : cs.filterMap id ≠ [] := by
      intro h0
      rw [h0] at hv
      cases hv
    obtain ⟨lo, hlo⟩ := qLin_isSome (1/100) _ hne
    obtain ⟨hi2, hhi⟩ := qLin_isSome (99/100) _ hne
    refine ⟨lo, hi2, clipCells cs, hlo, hhi, ?_, ?_⟩
    · simp only [clipFrame, List.get?_map, hj, Option.map_some']
    · simp only [clipCells, hlo, hhi, List.get?_map, hi, Option.map_some']
  · intro m hm1 hm2
    exact ⟨"Invalid method: " ++ m ++ ". No outlier handling performed.",
      by simp [handleOutliers, hm1, hm2]⟩

/-- Witness for `handle_outliers_spec`: removal on a concrete frame with the
IQR strategy. -/
theorem handle_outliers_spec_witness :
    ∃ out, handleOutliers iqrDetect "remove" exNf = Except.ok out ∧
      out.cols.map Prod.fst = exNf.cols.map Prod.fst ∧
      out.nRows = ((List.range exNf.nRows).filter
        fun i => !rowFlagged (iqrDetect exNf) i).length ∧
      ∀ j nm cs, exNf.cols.get? j = some (nm, cs) →
        out.cols.get? j = some (nm,
          (cs.zip ((List.range exNf.nRows).map fun i => rowFlagged (iqrDetect exNf) i)).filterMap
            fun q => if q.2 then none else some q.1) :=
  (handle_outliers_spec iqrDetect exNf (by decide)).1

/-- The sum of squared deviations is nonnegative. -/
theorem sqDevSum_nonneg (l : List ℚ) : 0 ≤ sqDevSum l := by
  apply List.sum_nonneg
  intro x hx
  rw [List.mem_map] at hx
  obtain ⟨y, _, rfl⟩ := hx
  positivity

/-- Each squared deviation is at most the sum of squared deviations. -/
theorem sq_le_sqDevSum (l : List ℚ) (v : ℚ) (hv : v ∈ l) :
    (v - listMean l) ^ 2 ≤ sqDevSum l := by
  apply List.single_le_sum
  · intro x hx
    rw [List.mem_map] at hx
    obtain ⟨y, _, rfl⟩ := hx
    positivity
  · exact List.mem_map.mpr ⟨v, hv, rfl⟩

/-- The squared rational comparison computed by the z-score mask is
equivalent to the specification's real-valued formula
`abs((x - mean)/std) > threshold` with the sample standard deviation. -/
theorem zscore_cast_equiv (vals : List ℚ) (v : ℚ) (hv : v ∈ vals) (τ : ℚ)
    (hτ : 0 ≤ τ) :
    ((v - listMean vals) ^ 2 * ((vals.length : ℚ) - 1) > τ ^ 2 * sqDevSum vals) ↔
      |(v : ℝ) - (listMean vals : ℝ)| /
          Real.sqrt ((sqDevSum vals : ℝ) / ((vals.length : ℝ) - 1)) > (τ : ℝ) := by
  have hτR : (0 : ℝ) ≤ (τ : ℝ) := by exact_mod_cast hτ
  have hS0 : 0 ≤ sqDevSum vals := sqDevSum_nonneg vals
  have hvS : (v - listMean vals) ^ 2 ≤ sqDevSum vals := sq_le_sqDevSum vals v hv
  have hn1 : 1 ≤ vals.length := List.length_pos.mpr (List.ne_nil_of_mem hv)
  rcases Nat.lt_or_ge vals.length 2 with h2 | h2
  · -- a single value: the standard deviation is NaN in the library and the
    -- mask is false; both sides are false here
    have hlen : vals.length = 1 := le_antisymm (Nat.lt_succ_iff.mp h2) hn1
    obtain ⟨w, rfl⟩ := List.length_eq_one.mp hlen
    have hvw : v = w := by simpa using hv
    subst hvw
    have hμ : listMean [v] = v := by
      simp [listMean]
    apply iff_of_false
    · simp [hμ, sqDevSum]
    · simp [hμ, not_lt]
      exact hτ
  · have hm : (0 : ℝ) < (vals.length : ℝ) - 1 := by
      have : (2 : ℝ) ≤ (vals.length : ℝ) := by exact_mod_cast h2
      linarith
    rcases eq_or_lt_of_le hS0 with hSz | hSpos
    · -- zero variance: every value equals the mean, both sides are false
      have hS : sqDevSum vals = 0 := hSz.symm
      have hvμ : v - listMean vals = 0 := by
        have hle : (v - listMean vals) ^ 2 ≤ 0 := hS ▸ hvS
        have := le_antisymm hle (sq_nonneg _)
        exact (pow_eq_zero_iff two_ne_zero).mp this
      apply iff_of_false
      · simp [hvμ, hS]
      · have hnum : |(v : ℝ) - (listMean vals : ℝ)| = 0 := by
          have : ((v - listMean vals : ℚ) : ℝ) = 0 := by exact_mod_cast hvμ
          push_cast at this
          simp [this]
        rw [gt_iff_lt, hnum]
        simp [not_lt]
        exact hτ
    · have hSR : (0 : ℝ) < (sqDevSum vals : ℝ) := by exact_mod_cast hSpos
      have hσ : 0 < Real.sqrt ((sqDevSum vals : ℝ) / ((vals.length : ℝ) - 1)) :=
        Real.sqrt_pos.mpr (div_pos hSR hm)
      have hτσ : 0 ≤ (τ : ℝ) * Real.sqrt ((sqDevSum vals : ℝ) / ((vals.length : ℝ) - 1)) :=
        mul_nonneg hτR hσ.le
      rw [gt_iff_lt, gt_iff_lt, lt_div_iff hσ]
      have key2 : ((τ : ℝ) * Real.sqrt ((sqDevSum vals : ℝ) / ((vals.length : ℝ) - 1))
            < |(v : ℝ) - (listMean vals : ℝ)|) ↔
          ((τ : ℝ) * Real.sqrt ((sqDevSum vals : ℝ) / ((vals.length : ℝ) - 1))) ^ 2
            < |(v : ℝ) - (listMean vals : ℝ)| ^ 2 := by
        constructor
        · intro h
          exact pow_lt_pow_left h hτσ (by norm_num)
        · intro h
          by_contra hle
          push_neg at hle
          exact absurd h (not_lt.mpr (pow_le_pow_left (abs_nonneg _) hle 2))
      rw [key2, mul_pow, Real.sq_sqrt (div_pos hSR hm).le, sq_abs,
        ← mul_div_assoc, div_lt_iff hm]
      constructor <;> intro h <;> exact_mod_cast h

/-- C4: `ZScoreOutlierDetection.detect_outliers` returns a mask of the same
shape as the dataset that is true on a value exactly when
`abs((x - mean)/std) > threshold` (sample standard deviation, missing cells
never flagged), and `IQRBasedOutlierDetection.detect_outliers` returns a
same-shape mask that is true exactly when the value lies outside
`[Q1 - 1.5*IQR, Q3 + 1.5*IQR]` for its column. -/
theorem detect_outliers_spec (nf : NumFrame) (τ : ℚ) (hτ : 0 ≤ τ) :
    ((zscoreDetect τ nf).map Prod.fst = nf.cols.map Prod.fst ∧
     ∀ j nm cs, nf.cols.get? j = some (nm, cs) →
       ∃ msk, (zscoreDetect τ nf).get? j = some (nm, msk) ∧
         msk.length = cs.length ∧
         (∀ i, cs.get? i = some none → msk.get? i = some false) ∧
         (∀ i v, cs.get? i = some (some v) →
           (msk.get? i = some true ↔
             |(v : ℝ) - (listMean (cs.filterMap id) : ℝ)| /
               Real.sqrt ((sqDevSum (cs.filterMap id) : ℝ) /
                 (((cs.filterMap id).length : ℝ) - 1)) > (τ : ℝ)))) ∧
    ((iqrDetect nf).map Prod.fst = nf.cols.map Prod.fst ∧
     ∀ j nm cs, nf.cols.get? j = some (nm, cs) →
       ∃ msk, (iqrDetect nf).get? j = some (nm, msk) ∧
         msk.length = cs.length ∧
         (∀ i, cs.get? i = some none → msk.get? i = some false) ∧
         (∀ i v, cs.get? i = some (some v) →
           ∃ q1 q3, qLin (1/4) (cs.filterMap id) = some q1 ∧
             qLin (3/4) (cs.filterMap id) = some q3 ∧
             (msk.get? i = some true ↔
               v < q1 - 3/2 * (q3 - q1) ∨ v > q3 + 3/2 * (q3 - q1)))) := by
  constructor
  · constructor
    · simp [zscoreDetect, List.map_map, Function.comp_def]
    · intro j nm cs hj
      refine ⟨maskOfZ τ cs, ?_, by simp [maskOfZ], ?_, ?_⟩
      · simp only [zscoreDetect, List.get?_map, hj, Option.map_some']
      · intro i hnone
        simp only [maskOfZ, List.get?_map, hnone, Option.map_some']
      · intro i v hi
        have hv : v ∈ cs.filterMap id := by
          rw [List.mem_filterMap]
          exact ⟨some v, List.get?_mem hi, rfl⟩
        have hnlt : ¬ τ < 0 := not_lt.mpr hτ
        simp only [maskOfZ, List.get?_map, hi, Option.map_some', hnlt, if_false,
          Option.some.injEq, decide_eq_true_eq]
        exact zscore_cast_equiv (cs.filterMap id) v hv τ hτ
  · constructor
    · simp [iqrDetect, List.map_map, Function.comp_def]
    · intro j nm cs hj
      refine ⟨maskOfIQR cs, ?_, ?_, ?_, ?_⟩
      · simp only [iqrDetect, List.get?_map, hj, Option.map_some']
      · simp only [maskOfIQR]
        cases qLin (1/4) (cs.filterMap id) <;>
          cases qLin (3/4) (cs.filterMap id) <;> simp
      · intro i hnone
        rcases h1 : qLin (1/4) (cs.filterMap id) with _ | q1 <;>
          rcases h3 : qLin (3/4) (cs.filterMap id) with _ | q3 <;>
          simp only [maskOfIQR, h1, h3, List.get?_map, hnone, Option.map_some']
      · intro i v hi
        have hv : v ∈ cs.filterMap id := by
          rw [List.mem_filterMap]
          exact ⟨some v, List.get?_mem hi, rfl⟩
        have hne : cs.filterMap id ≠ [] := by
          intro h0
          rw [h0] at hv
          cases hv
        obtain ⟨q1, h1⟩ := qLin_isSome (1/4) _ hne
        obtain ⟨q3, h3⟩ := qLin_isSome (3/4) _ hne
        refine ⟨q1, q3, h1, h3, ?_⟩
        simp only [maskOfIQR, h1, h3, List.get?_map, hi, Option.map_some',
          Option.some.injEq, decide_eq_true_eq]

/-- Witness for `detect_outliers_spec` at a concrete frame and threshold. -/
theorem detect_outliers_spec_witness :
    (zscoreDetect 3 exNf).map Prod.fst = exNf.cols.map Prod.fst ∧
    (iqrDetect exNf).map Prod.fst = exNf.cols.map Prod.fst := by
  have h := detect_outliers_spec exNf 3 (by norm_num)
  exact ⟨h.1.1, h.2.1⟩

/-- Filling preserves the number of cells. -/
theorem fillCellsWith_length {V : Type} (v : Val V) (cs : List (Option (Val V))) :
    (fillCellsWith v cs).length = cs.length := by
  simp [fillCellsWith]

/-- A filled cell list has no missing cells. -/
theorem hasNullCells_fillCellsWith {V : Type} (v : Val V)
    (cs : List (Option (Val V))) :
    hasNullCells (fillCellsWith v cs) = false := by
  simp [hasNullCells, fillCellsWith, List.any_map, Function.comp_def]

/-- A nonempty value list has a first modal value. -/
theorem firstModal_isSome (l : List (Val ℚ)) (h : l ≠ []) :
    ∃ m, firstModal l = some m := by
  rw [firstModal]
  cases hd : l.dedup with
  | nil => exact absurd ((List.dedup_eq_nil _).mp hd) h
  | cons c cs => exact ⟨_, rfl⟩

/-- When every column has a non-missing value, filling by mode succeeds and
fills each column with its first modal value. -/
theorem mapColsE_fillMode (l : List (Column ℚ))
    (h : ∀ c ∈ l, nonNull c.cells ≠ []) :
    mapColsE fillModeCol l = Except.ok (l.map fun c =>
      match firstModal (nonNull c.cells) with
      | some mv => { c with cells := fillCellsWith mv c.cells }
      | none => c) := by
  induction l with
  | nil => rfl
  | cons c cs ih =>
    obtain ⟨mv, hmv⟩ := firstModal_isSome _ (h c (List.mem_cons_self c cs))
    have hrec := ih fun d hd => h d (List.mem_cons_of_mem c hd)
    simp only [mapColsE, fillModeCol, hmv, hrec, List.map_cons]
    rfl

/-- Mean/median fill: shapes preserved, every numeric column with data ends
complete, non-numeric columns untouched. -/
theorem fillNumericWith_spec (statOf : List ℚ → ℚ) (df : Frame)
    (hD : numColsHaveData df = true) :
    colShapes (fillNumericWith statOf df) = colShapes df ∧
    (fillNumericWith statOf df).index = df.index ∧
    (∀ c ∈ (fillNumericWith statOf df).cols, c.dtype = Dtype.numeric →
      hasNullCells c.cells = false) ∧
    (∀ j cOut cIn, (fillNumericWith statOf df).cols.get? j = some cOut →
      df.cols.get? j = some cIn → cIn.dtype ≠ Dtype.numeric → cOut = cIn) := by
  refine ⟨?_, rfl, ?_, ?_⟩
  · simp only [colShapes, fillNumericWith, List.map_map]
    apply List.map_congr_left
    intro c _
    by_cases hn : c.dtype = Dtype.numeric
    · by_cases he : qVals c.cells = []
      · simp [hn, he, Function.comp_def]
      · simp [hn, he, Function.comp_def, fillCellsWith_length]
    · simp [hn, Function.comp_def]
  · intro c hc hdt
    simp only [fillNumericWith, List.mem_map] at hc
    obtain ⟨c0, hc0, rfl⟩ := hc
    by_cases hn : c0.dtype = Dtype.numeric
    · have hne : (qVals c0.cells).isEmpty = false := by
        have := List.all_eq_true.mp hD c0 hc0
        simpa [hn] using this
      simp [hn, hne, hasNullCells_fillCellsWith]
    · simp [hn] at hdt
  · intro j cOut cIn hjOut hjIn hdt
    simp only [fillNumericWith, List.get?_map, hjIn, Option.map_some'] at hjOut
    have := Option.some.inj hjOut
    rw [← this]
    simp [hdt]

/-- C1 (amended): `FillMissingValuesStrategy.handle` preserves the dataset's
shape and leaves zero missing values in the columns the method applies to,
provided every column the method applies to holds at least one non-missing
value (and, for `constant`, a fill value was supplied): mean/median fill
only numeric columns and leave non-numeric columns untouched, mode fills
every column with that column's first modal value, and constant fills all
columns with the supplied value. -/
theorem fill_missing_values_spec (df : Frame) (fv : Option ℚ) :
    (numColsHaveData df = true →
      ∀ m, m = "mean" ∨ m = "median" →
      ∃ out, fillMissingHandle m fv df = Except.ok out ∧
        colShapes out = colShapes df ∧ out.index = df.index ∧
        (∀ c ∈ out.cols, c.dtype = Dtype.numeric → hasNullCells c.cells = false) ∧
        (∀ j cOut cIn, out.cols.get? j = some cOut → df.cols.get? j = some cIn →
          cIn.dtype ≠ Dtype.numeric → cOut = cIn)) ∧
    (allColsHaveData df = true →
      ∃ out, fillMissingHandle "mode" fv df = Except.ok out ∧
        colShapes out = colShapes df ∧ out.index = df.index ∧
        (∀ c ∈ out.cols, hasNullCells c.cells = false) ∧
        (∀ j cOut cIn, out.cols.get? j = some cOut → df.cols.get? j = some cIn →
          ∃ mv, firstModal (nonNull cIn.cells) = some mv ∧
            cOut.cells = fillCellsWith mv cIn.cells)) ∧
    (∀ v : ℚ,
      ∃ out, fillMissingHandle "constant" (some v) df = Except.ok out ∧
        colShapes out = colShapes df ∧ out.index = df.index ∧
        (∀ c ∈ out.cols, hasNullCells c.cells = false) ∧
        (∀ j cOut cIn, out.cols.get? j = some cOut → df.cols.get? j = some cIn →
          cOut.cells = fillCellsWith (.num v) cIn.cells)) := by
  refine ⟨?_, ?_, ?_⟩
  · intro hD m hm
    obtain ⟨h1, h2, h3, h4⟩ := fillNumericWith_spec
      (if m = "mean" then listMean else listMedian) df hD
    rcases hm with rfl | rfl
    · exact ⟨_, rfl, by simpa using h1, h2, by simpa using h3, by simpa using h4⟩
    · exact ⟨_, rfl, by simpa using h1, h2, by simpa using h3, by simpa using h4⟩
  · intro hA
    have hall : ∀ c ∈ df.cols, nonNull c.cells ≠ [] := by
      intro c hc
      have := List.all_eq_true.mp hA c hc
      simpa using this
    have heq := mapColsE_fillMode df.cols hall
    have hstep : fillMissingHandle "mode" fv df =
        (mapColsE fillModeCol df.cols).bind
          (fun cols2 => Except.ok { df with cols := cols2 }) := rfl
    refine ⟨{ df with cols := df.cols.map fun c =>
        match firstModal (nonNull c.cells) with
        | some mv => { c with cells := fillCellsWith mv c.cells }
        | none => c }, ?_, ?_, rfl, ?_, ?_⟩
    · exact hstep.trans (by rw [heq]; rfl)
    · simp only [colShapes, List.map_map]
      apply List.map_congr_left
      intro c hc
      obtain ⟨mv, hmv⟩ := firstModal_isSome _ (hall c hc)
      simp [hmv, Function.comp_def, fillCellsWith_length]
    · intro c hc
      simp only [List.mem_map] at hc
      obtain ⟨c0, hc0, rfl⟩ := hc
      obtain ⟨mv, hmv⟩ := firstModal_isSome _ (hall c0 hc0)
      simp [hmv, hasNullCells_fillCellsWith]
    · intro j cOut cIn hjOut hjIn
      obtain ⟨mv, hmv⟩ := firstModal_isSome _ (hall cIn (List.get?_mem hjIn))
      simp only [List.get?_map, hjIn, Option.map_some'] at hjOut
      have hco := Option.some.inj hjOut
      rw [← hco, hmv]
      exact ⟨mv, rfl, rfl⟩
  · intro v
    refine ⟨_, rfl, ?_, rfl, ?_, ?_⟩
    · simp only [colShapes, List.map_map]
      apply List.map_congr_left
      intro c _
      simp [Function.comp_def, fillCellsWith_length]
    · intro c hc
      simp only [List.mem_map] at hc
      obtain ⟨c0, _, rfl⟩ := hc
      simp [hasNullCells_fillCellsWith]
    · intro j cOut cIn hjOut hjIn
      simp only [List.get?_map, hjIn, Option.map_some'] at hjOut
      exact (Option.some.inj hjOut).symm ▸ rfl

/-- C1 counterexample: on a dataset whose single numeric column is entirely
missing, the `mean` fill returns the dataset unchanged — the filled output
still contains a missing value in a column the method applies to, so the
zero-nulls claim fails as universally stated. -/
theorem fill_mean_allnull_counterexample :
    fillMissingHandle "mean" none exNullDf = Except.ok exNullDf ∧
    exNullDf.hasNull = true ∧
    (exNullDf.cols.map fun c => c.dtype) = [Dtype.numeric] :=
  ⟨rfl, rfl, rfl⟩

/-- Witness for `fill_missing_values_spec` at a concrete frame. -/
theorem fill_missing_values_spec_witness :
    (∃ out, fillMissingHandle "mean" none exDf = Except.ok out ∧
      colShapes out = colShapes exDf ∧ out.index = exDf.index ∧
      (∀ c ∈ out.cols, c.dtype = Dtype.numeric → hasNullCells c.cells = false) ∧
      (∀ j cOut cIn, out.cols.get? j = some cOut → exDf.cols.get? j = some cIn →
        cIn.dtype ≠ Dtype.numeric → cOut = cIn)) ∧
    (∃ out, fillMissingHandle "mode" none exDf = Except.ok out ∧
      colShapes out = colShapes exDf ∧ out.index = exDf.index ∧
      (∀ c ∈ out.cols, hasNullCells c.cells = false) ∧
      (∀ j cOut cIn, out.cols.get? j = some cOut → exDf.cols.get? j = some cIn →
        ∃ mv, firstModal (nonNull cIn.cells) = some mv ∧
          cOut.cells = fillCellsWith mv cIn.cells)) ∧
    (∃ out, fillMissingHandle "constant" (some 7) exDf = Except.ok out ∧
      colShapes out = colShapes exDf ∧ out.index = exDf.index ∧
      (∀ c ∈ out.cols, hasNullCells c.cells = false) ∧
      (∀ j cOut cIn, out.cols.get? j = some cOut → exDf.cols.get? j = some cIn →
        cOut.cells = fillCellsWith (.num 7) cIn.cells)) := by
  have h := fill_missing_values_spec exDf none
  exact ⟨h.1 (by decide) "mean" (Or.inl rfl), h.2.1 (by decide), h.2.2 7⟩

/-- The sorted category list has no duplicates. -/
theorem sortedCats_nodup {V : Type} (cells : List (Option (Val V))) :
    (sortedCats cells).Nodup :=
  ((sortBy_perm _ _).nodup_iff).mpr (List.nodup_dedup _)

/-- Membership in the sorted category list is membership among the observed
categories. -/
theorem mem_sortedCats {V : Type} (cells : List (Option (Val V))) (s : String) :
    s ∈ sortedCats cells ↔ s ∈ sVals cells := by
  rw [sortedCats, (sortBy_perm _ _).mem_iff, List.mem_dedup]

/-- Sorting keeps the number of distinct categories. -/
theorem sortedCats_length {V : Type} (cells : List (Option (Val V))) :
    (sortedCats cells).length = (sVals cells).dedup.length :=
  (sortBy_perm _ _).length_eq

/-- Over a duplicate-free list containing `v`, the indicator of `v` sums
to one. -/
theorem sum_indicator_one (v : String) (l : List String) (hnd : l.Nodup)
    (hv : v ∈ l) :
    (l.map fun c => if v = c then (1 : ℚ) else 0).sum = 1 := by
  induction l with
  | nil => cases hv
  | cons a l ih =>
    rw [List.map_cons, List.sum_cons]
    rcases List.mem_cons.mp hv with rfl | h
    · rw [if_pos rfl]
      have hnotin : v ∉ l := (List.nodup_cons.mp hnd).1
      have hz : (l.map fun c => if v = c then (1 : ℚ) else 0).sum = 0 := by
        apply List.sum_eq_zero
        intro x hx
        rw [List.mem_map] at hx
        obtain ⟨c, hc, rfl⟩ := hx
        have hvc : v ≠ c := fun hvc => hnotin (hvc ▸ hc)
        simp [hvc]
      rw [hz]
      norm_num
    · have hva : v ≠ a := by
        rintro rfl
        exact (List.nodup_cons.mp hnd).1 h
      rw [if_neg hva, ih (List.nodup_cons.mp hnd).2 h]
      norm_num

/-- A category-suffixed column name never equals the bare name. -/
theorem append_cat_ne (f s : String) : f ++ "_" ++ s ≠ f := by
  intro h
  have hdata : (f ++ "_" ++ s).data = f.data := congrArg String.data h
  rw [String.data_append, String.data_append] at hdata
  have hlen := congrArg List.length hdata
  have hu : ("_" : String).data = ['_'] := rfl
  rw [hu] at hlen
  simp [List.length_append] at hlen

/-- C2 (amended): one-hot encoding a categorical column with `k` distinct
observed categories and no missing values produces exactly `k` new 0/1
columns summing to 1 per row, removes the original column, resets the row
index to `0..n-1`, and orders the output as the remaining original columns
first followed by the encoded category columns. -/
theorem one_hot_spec (df : Frame) (f : String) (c : Column ℚ)
    (hfind : df.cols.find? (fun d => d.name = f) = some c)
    (hcells : ∀ cell ∈ c.cells, ∃ s, cell = some (Val.cat s)) :
    ∃ out, oneHotTransform [f] df = Except.ok out ∧
      out.cols = df.cols.filter (fun d => !([f].contains d.name)) ++ encodeCol c ∧
      (encodeCol c).length = (sVals c.cells).dedup.length ∧
      (∀ ec ∈ encodeCol c, ec.dtype = Dtype.numeric ∧
        ∀ cell ∈ ec.cells, cell = some (Val.num 0) ∨ cell = some (Val.num 1)) ∧
      (∀ d ∈ out.cols, d.name ≠ f) ∧
      out.index = List.range df.nRows ∧
      (∀ i, i < c.cells.length →
        ((encodeCol c).map fun ec => cellQ ec.cells i).sum = 1) := by
  have hcmem : c ∈ df.cols := List.mem_of_find?_eq_some hfind
  have hname : c.name = f := by
    have := List.find?_some hfind
    simpa using this
  have hmemn : f ∈ df.colNames := by
    rw [DataFrame.colNames, List.mem_map]
    exact ⟨c, hcmem, hname⟩
  have hguard : ([f].all fun g => df.colNames.contains g) = true := by
    simpa using hmemn
  have heq : oneHotTransform [f] df = Except.ok
      { cols := df.cols.filter (fun d => !([f].contains d.name)) ++ encodeCol c,
        index := List.range df.nRows } := by
    simp [oneHotTransform, hguard, hfind, hmemn]
  refine ⟨_, heq, rfl, ?_, ?_, ?_, rfl, ?_⟩
  · rw [encodeCol]
    rw [List.length_map, sortedCats_length]
  · intro ec hec
    rw [encodeCol, List.mem_map] at hec
    obtain ⟨catv, _, rfl⟩ := hec
    refine ⟨rfl, ?_⟩
    intro cell hcell
    rw [List.mem_map] at hcell
    obtain ⟨cell0, _, rfl⟩ := hcell
    by_cases h : cell0 = some (Val.cat catv) <;> simp [h]
  · intro d hd hdf
    rcases List.mem_append.mp hd with hk | he
    · have := (List.mem_filter.mp hk).2
      simp [hdf] at this
    · rw [encodeCol, List.mem_map] at he
      obtain ⟨catv, _, rfl⟩ := he
      simp only at hdf
      rw [hname] at hdf
      exact append_cat_ne f catv hdf
  · intro i hi
    have hget : c.cells.get? i = some (c.cells.get ⟨i, hi⟩) := List.get?_eq_get hi
    obtain ⟨s0, hs0⟩ := hcells _ (c.cells.get_mem i hi)
    have hmem0 : s0 ∈ sortedCats c.cells := by
      rw [mem_sortedCats, sVals, List.mem_filterMap]
      refine ⟨some (Val.cat s0), ?_, rfl⟩
      rw [← hs0]
      exact c.cells.get_mem i hi
    rw [encodeCol, List.map_map]
    have hcong : ∀ catv ∈ sortedCats c.cells,
        ((fun ec => cellQ ec.cells i) ∘ fun catv =>
          ({ name := c.name ++ "_" ++ catv, dtype := Dtype.numeric,
             cells := c.cells.map fun cell =>
               some (.num (if cell = some (.cat catv) then 1 else 0)) } : Column ℚ)) catv
          = if s0 = catv then (1 : ℚ) else 0 := by
      intro catv _
      simp only [Function.comp_def, cellQ, List.get?_map, hget, Option.map_some', hs0]
      by_cases h : s0 = catv
      · simp [h]
      · have h2 : some (Val.cat (V := ℚ) s0) ≠ some (Val.cat catv) := by
          simp [h]
        simp [h, h2]
    rw [List.map_congr_left hcong]
    exact sum_indicator_one s0 _ (sortedCats_nodup c.cells) hmem0

/-- C2 counterexample: on a concrete frame, the one-hot output places the
remaining original column first and the encoded category columns last, not
the encoded columns first as claimed. -/
theorem one_hot_order_counterexample :
    oneHotTransform ["cat"] exC2df = Except.ok exC2out ∧
    exC2out.colNames = ["x", "cat_a", "cat_b"] ∧
    exC2out.colNames ≠ ["cat_a", "cat_b", "x"] :=
  ⟨rfl, rfl, by decide⟩

/-- Witness for `one_hot_spec` at a concrete frame and its categorical
column. -/
theorem one_hot_spec_witness :
    ∃ out, oneHotTransform ["cat"] exC2df = Except.ok out ∧
      out.cols = exC2df.cols.filter
        (fun d => !(["cat"].contains d.name)) ++ encodeCol exC2cat ∧
      (encodeCol exC2cat).length = (sVals exC2cat.cells).dedup.length ∧
      (∀ ec ∈ encodeCol exC2cat, ec.dtype = Dtype.numeric ∧
        ∀ cell ∈ ec.cells, cell = some (Val.num 0) ∨ cell = some (Val.num 1)) ∧
      (∀ d ∈ out.cols, d.name ≠ "cat") ∧
      out.index = List.range exC2df.nRows ∧
      (∀ i, i < exC2cat.cells.length →
        ((encodeCol exC2cat).map fun ec => cellQ ec.cells i).sum = 1) := by
  apply one_hot_spec exC2df "cat" exC2cat
  · rfl
  · intro cell hcell
    simp only [exC2cat, List.mem_cons, List.not_mem_nil, or_false] at hcell
    rcases hcell with rfl | rfl | rfl
    · exact ⟨"b", rfl⟩
    · exact ⟨"a", rfl⟩
    · exact ⟨"b", rfl⟩

/-- C9: `LogTransformation.apply_transformation` replaces each target column
value `x` by `log(1+x)` (leaving non-target columns and names untouched),
and applying the inverse `exp(x)-1` to the transformed frame recovers the
original frame exactly for non-negative inputs. -/
theorem log_transform_spec (df : DataFrame ℝ) (features : List String)
    (hpos : ∀ c ∈ df.cols, c.name ∈ features →
      ∀ cell ∈ c.cells, ∀ x : ℝ, cell = some (Val.num x) → 0 ≤ x) :
    (∀ j cIn, df.cols.get? j = some cIn →
      ∃ cOut, (mapFeatureCells (fun x : ℝ => Real.log (1 + x)) features df).cols.get? j
          = some cOut ∧ cOut.name = cIn.name ∧ cOut.dtype = cIn.dtype ∧
        (features.contains cIn.name = true →
          cOut.cells = cIn.cells.map
            (Option.map (mapValNum fun x : ℝ => Real.log (1 + x)))) ∧
        (features.contains cIn.name = false → cOut = cIn)) ∧
    mapFeatureCells (fun y : ℝ => Real.exp y - 1) features
      (mapFeatureCells (fun x : ℝ => Real.log (1 + x)) features df) = df := by
  constructor
  · intro j cIn hj
    refine ⟨if features.contains cIn.name then
        { cIn with cells := cIn.cells.map fun cell =>
            cell.map (mapValNum fun x : ℝ => Real.log (1 + x)) }
      else cIn, ?_, ?_, ?_, ?_, ?_⟩
    · simp only [mapFeatureCells, List.get?_map, hj, Option.map_some']
    · by_cases h : features.contains cIn.name = true
      · rw [if_pos h]
      · rw [if_neg h]
    · by_cases h : features.contains cIn.name = true
      · rw [if_pos h]
      · rw [if_neg h]
    · intro h
      rw [if_pos h]
    · intro h
      rw [if_neg fun hc => Bool.false_ne_true (h ▸ hc)]
  · obtain ⟨cols, index⟩ := df
    simp only [mapFeatureCells, List.map_map, DataFrame.mk.injEq, and_true]
    conv_rhs => rw [← List.map_id cols]
    apply List.map_congr_left
    intro c hc
    by_cases hf : features.contains c.name
    · simp only [Function.comp_def, hf, if_true, id_eq]
      have hf2 : features.contains c.name = true := hf
      cases c with
      | mk nm dt cells =>
        simp only [hf2, if_true, Column.mk.injEq, true_and, List.map_map]
        conv_rhs => rw [← List.map_id cells]
        apply List.map_congr_left
        intro cell hcell
        cases cell with
        | none => rfl
        | some v =>
          cases v with
          | cat s => rfl
          | num x =>
            have hx : 0 ≤ x := hpos _ hc (by simpa using hf2) _ hcell x rfl
            have h1x : (0 : ℝ) < 1 + x := by linarith
            simp only [Option.map_some', Option.map_map, Function.comp_def, id_eq,
              mapValNum]
            rw [Real.exp_log h1x]
            norm_num
    · simp only [Function.comp_def, hf, Bool.false_eq_true, if_false, id_eq]

/-- Witness for `log_transform_spec`: the round trip at a concrete frame. -/
theorem log_transform_spec_witness :
    mapFeatureCells (fun y : ℝ => Real.exp y - 1) ["p"]
      (mapFeatureCells (fun x : ℝ => Real.log (1 + x)) ["p"] exLogDf) = exLogDf := by
  refine (log_transform_spec exLogDf ["p"] ?_).2
  intro c hc hcf cell hcell x hx
  simp only [exLogDf, List.mem_singleton] at hc
  subst hc
  simp only [List.mem_cons, List.not_mem_nil, or_false] at hcell
  rcases hcell with rfl | rfl
  · have h3 : (Val.num (V := ℝ) 3) = Val.num x := by simpa using hx
    exact (Val.num.inj h3) ▸ (by norm_num : (0 : ℝ) ≤ 3)
  · have h0 : (Val.num (V := ℝ) 0) = Val.num x := by simpa using hx
    exact (Val.num.inj h0) ▸ (le_refl (0 : ℝ))

end PricesPredictor
